import Mathlib

/-!
Verification of the ChitChat Express backend's real-time coordination layer.

The development shallowly embeds the two socket layers of the repository
(`src/lib/socket.js`, the layer used by `index.js`, and
`src/lib/socket_enhanced.js`, the layer used by `index_enhanced.js` and the
enhanced message controller), the enhanced message model
(`src/models/message_enhanced.model.js`) and the relevant REST controller
operations (`src/controllers/message_enhanced.controller.js`).

JavaScript objects used as maps are embedded as association lists with
overwrite-on-assign semantics; `Date.now()` instants are embedded as explicit
natural-number timestamps passed to each operation in execution order;
`setTimeout`/`clearTimeout` timers are embedded with generation counters (a
cleared timer never fires, so an expiry event is enabled only for the
generation currently armed); socket.io emissions are embedded as explicit
output-event lists.
-/

/-! ## Association lists with JavaScript object-map semantics -/

/-- First-match lookup in an association list (JS property read). -/
def alookup {α β : Type} [DecidableEq α] : List (α × β) → α → Option β
  | [], _ => none
  | (k, v) :: rest, key => if k = key then some v else alookup rest key

/-- Remove every binding of a key (JS `delete obj[key]`). -/
def aerase {α β : Type} [DecidableEq α] : List (α × β) → α → List (α × β)
  | [], _ => []
  | (k, v) :: rest, key =>
    if k = key then aerase rest key else (k, v) :: aerase rest key

/-- Overwriting assignment (JS `obj[key] = v`). -/
def aset {α β : Type} [DecidableEq α] (m : List (α × β)) (key : α) (v : β) :
    List (α × β) :=
  (key, v) :: aerase m key

/-- The keys of an association list (JS `Object.keys`). -/
def akeys {α β : Type} (m : List (α × β)) : List α :=
  m.map (fun p => p.1)

/-! ## Connection registry of `src/lib/socket.js`

State of the `io.on("connection")` / `socket.on("disconnect")` handlers:
`userSocketMap` (`{userId: socketId}`), `socketUserMap` (`{socketId: userId}`),
the per-socket joined rooms (`socket.join`), and the set of live sockets
(`io.sockets.sockets`).  socket.io delivers `socket.disconnect()` by running
the server-side disconnect handler synchronously after removing the socket
from `io.sockets.sockets`, which the embedding reproduces.  The typing-map
cleanup inside the disconnect handler touches only the typing subsystem
(modelled separately below) and no registry field. -/

namespace Registry

/-- Events emitted by the registry handlers. -/
inductive ROut : Type where
  | connectionReplaced (sock : Nat)
  | forceDisconnect (sock : Nat)
  | getOnlineUsers (users : List String)
deriving DecidableEq, Repr

structure RState : Type where
  userSocketMap : List (String × Nat)
  socketUserMap : List (Nat × String)
  rooms : List (Nat × List String)
  live : List Nat
deriving DecidableEq, Repr

def initState : RState := ⟨[], [], [], []⟩

/-- `socket.userId || socket.handshake.query.userId` (line 183): the id the
auth middleware attached, else the raw handshake query parameter. -/
def resolvedId (authUserId queryUserId : Option String) : Option String :=
  match authUserId with
  | some a => some a
  | none => queryUserId

/-- The guard `userId && userId !== "undefined" && userId !== "null"`
(line 186); an absent or empty id is falsy in JavaScript. -/
def validId : Option String → Bool
  | none => false
  | some s => s != "" && s != "undefined" && s != "null"

/-- `broadcastOnlineUsers` (lines 231-238): `io.emit("getOnlineUsers",
Object.keys(userSocketMap))`. -/
def broadcastOnlineUsers (st : RState) : ROut :=
  ROut.getOnlineUsers (akeys st.userSocketMap)

/-- The `socket.on("disconnect")` handler (lines 245-264).  socket.io removes
the socket from `io.sockets.sockets` before the handler runs.  The handler
looks the user up in `socketUserMap` and, when found, deletes both map
entries; it always re-broadcasts the online users. -/
def onDisconnect (st : RState) (sock : Nat) : RState × List ROut :=
  let st0 : RState := { st with live := st.live.erase sock, rooms := aerase st.rooms sock }
  match alookup st0.socketUserMap sock with
  | some u =>
    let st1 : RState := { st0 with
      userSocketMap := aerase st0.userSocketMap u,
      socketUserMap := aerase st0.socketUserMap sock }
    (st1, [broadcastOnlineUsers st1])
  | none => (st0, [broadcastOnlineUsers st0])

/-- The `io.on("connection")` handler (lines 180-238) up to and including the
immediate `broadcastOnlineUsers()` call.  `convs` is the result of the
`Conversation.find({participants: userId}).limit(50)` query.  When a previous
connection is registered for the user, the handler emits `connectionReplaced`
to it and calls `oldSocket.disconnect()`, which synchronously runs the old
socket's disconnect handler; afterwards both maps are updated and the socket
joins its user room plus each conversation room. -/
def onConnection (st : RState) (authUserId queryUserId : Option String)
    (sock : Nat) (convs : List String) : RState × List ROut :=
  let stA : RState := { st with live := sock :: st.live }
  match resolvedId authUserId queryUserId with
  | none => (stA, [broadcastOnlineUsers stA])
  | some u =>
    if validId (some u) then
      let evicted :=
        match alookup stA.userSocketMap u with
        | some oldSock =>
          if stA.live.contains oldSock then
            let c := onDisconnect stA oldSock
            (c.1, [ROut.connectionReplaced oldSock, ROut.forceDisconnect oldSock] ++ c.2)
          else (stA, [])
        | none => (stA, [])
      let st1 := evicted.1
      let st2 : RState := { st1 with
        userSocketMap := aset st1.userSocketMap u sock,
        socketUserMap := aset st1.socketUserMap sock u,
        rooms := aset st1.rooms sock (("user_" ++ u) :: convs.take 50) }
      (st2, evicted.2 ++ [broadcastOnlineUsers st2])
    else (stA, [broadcastOnlineUsers stA])

/-- Reachable-state invariant: both maps have distinct keys, they are mutually
inverse, and every registered socket is live. -/
def WF (st : RState) : Prop :=
  (akeys st.userSocketMap).Nodup ∧
  (akeys st.socketUserMap).Nodup ∧
  (∀ p ∈ st.userSocketMap, alookup st.socketUserMap p.2 = some p.1) ∧
  (∀ p ∈ st.socketUserMap, alookup st.userSocketMap p.2 = some p.1) ∧
  (∀ p ∈ st.socketUserMap, st.live.contains p.1 = true)

instance (st : RState) : Decidable (WF st) := by
  unfold WF
  infer_instance

end Registry

namespace Registry

/-- Which socket receives an emitted event: `io.emit` (used by
`broadcastOnlineUsers`) reaches every connected socket, while the two
replacement signals are addressed to one socket. -/
def deliversTo (connected : List Nat) (o : ROut) (s : Nat) : Bool :=
  match o with
  | ROut.getOnlineUsers _ => connected.contains s
  | ROut.connectionReplaced t => s == t
  | ROut.forceDisconnect t => s == t

end Registry

/-! ## Connection bookkeeping of `src/lib/socket_enhanced.js`

The legacy socket layer keeps only `userSocketMap = {userId: socketId}`.  Its
`io.on("connection")` handler (lines 56-94) installs the query userId with no
eviction of an existing connection, and its `socket.on("disconnect")` handler
(lines 310-360) deletes `userSocketMap[userId]` for the closure-captured query
userId of the disconnecting socket, with no check that the disconnecting
socket is still the registered one.  The presence map, room joins and
broadcasts of those handlers do not read or write `userSocketMap` and are
omitted from this projection. -/

namespace LegacyRegistry

/-- The query-userId guard `userId && userId !== "undefined" && userId !== "null"`. -/
def validQuery : Option String → Bool
  | none => false
  | some s => s != "" && s != "undefined" && s != "null"

/-- `userSocketMap[userId] = socket.id` (line 62). -/
def connectL (st : List (String × Nat)) (query : Option String) (sock : Nat) :
    List (String × Nat) :=
  match query with
  | some u => if validQuery (some u) then aset st u sock else st
  | none => st

/-- `delete userSocketMap[userId]` (line 322); `userId` is the handshake query
id captured at connection time, and `sock` the disconnecting socket, which the
handler never consults. -/
def disconnectL (st : List (String × Nat)) (query : Option String) (_sock : Nat) :
    List (String × Nat) :=
  match query with
  | some u => if validQuery (some u) then aerase st u else st
  | none => st

end LegacyRegistry

/-! ## Typing-indicator state machine of `src/lib/socket.js` (lines 97-178)

`typingUsers` is a nested map `conversationId -> Map(userId -> {userName,
timestamp, socketId, timeoutId})`; since `handleStopTyping` deletes an inner
map as soon as it becomes empty, the nested map is embedded as a flat map
keyed by `(conversationId, userId)`.  A `setTimeout` handle is embedded as a
generation number drawn from a counter; `clearTimeout` makes the old
generation unable to fire, so an expiry event is enabled only for the
generation stored in the current entry. -/

namespace Typing

/-- One entry of `typingUsers`: `{userName, timestamp, socketId, timeoutId}`
with the timeout handle as a generation number. -/
structure TEntry : Type where
  userName : String
  timestamp : Nat
  sockId : Nat
  gen : Nat
deriving DecidableEq, Repr

structure TState : Type where
  typingUsers : List ((String × String) × TEntry)
  nextGen : Nat
deriving DecidableEq, Repr

def initT : TState := ⟨[], 0⟩

/-- Events emitted by the typing handlers: `socket.emit("error", ...)`,
`socket.to(conversationId).emit("userTyping", ...)` (excluding the
originating socket) and `socket.to(conversationId).emit("userStoppedTyping",
...)`. -/
inductive TOut : Type where
  | errorSignal (sock : Nat)
  | userTyping (exceptSock : Nat) (conversationId userId : String)
  | userStoppedTyping (conversationId userId : String)
deriving DecidableEq, Repr

/-- JavaScript truthiness of the destructured string fields: an absent field
is embedded as the empty string. -/
def validStr (s : String) : Bool := s != ""

def lookupT (st : TState) (c u : String) : Option TEntry :=
  alookup st.typingUsers (c, u)

/-- `handleTyping` (lines 102-145): on invalid data emit an error; otherwise
clear any existing timeout (the old generation can no longer fire), store the
entry with a freshly armed timeout, and broadcast `userTyping` to the room
excluding the originating socket. -/
def handleTyping (st : TState) (sock : Nat) (c u n : String) (now : Nat) :
    TState × List TOut :=
  if validStr c && validStr u && validStr n then
    let g := st.nextGen
    (⟨aset st.typingUsers (c, u) ⟨n, now, sock, g⟩, g + 1⟩,
      [TOut.userTyping sock c u])
  else (st, [TOut.errorSignal sock])

/-- `handleStopTyping` (lines 147-178): return silently when no entry exists
for the conversation or user; otherwise clear the timeout, delete the entry
(dropping the conversation map when it empties) and broadcast
`userStoppedTyping`. -/
def handleStopTyping (st : TState) (c u : String) : TState × List TOut :=
  match lookupT st c u with
  | none => (st, [])
  | some _ =>
    (⟨aerase st.typingUsers (c, u), st.nextGen⟩, [TOut.userStoppedTyping c u])

/-- Firing of the timeout armed by `handleTyping` (lines 122-124): the
callback runs `handleStopTyping`; a timer that was cleared — because the entry
was renewed (new generation) or removed — never fires, so the event has an
effect only when the armed generation matches. -/
def expireTimer (st : TState) (c u : String) (g : Nat) : TState × List TOut :=
  match lookupT st c u with
  | some e => if e.gen = g then handleStopTyping st c u else (st, [])
  | none => (st, [])

/-- The event alphabet of the typing machine. -/
inductive TEv : Type where
  | typing (sock : Nat) (c u n : String) (now : Nat)
  | stop (c u : String)
  | expire (c u : String) (g : Nat)
deriving DecidableEq, Repr

def stepT (st : TState) : TEv → TState × List TOut
  | TEv.typing sock c u n now => handleTyping st sock c u n now
  | TEv.stop c u => handleStopTyping st c u
  | TEv.expire c u g => expireTimer st c u g

def runT (st : TState) : List TEv → TState × List TOut
  | [] => (st, [])
  | e :: es =>
    let r := stepT st e
    let r2 := runT r.1 es
    (r2.1, r.2 ++ r2.2)

/-- Number of `userStoppedTyping` broadcasts for `(c, u)` in an output list. -/
def stopsFor (outs : List TOut) (c u : String) : Nat :=
  outs.countP (fun o => o == TOut.userStoppedTyping c u)

/-- Whether a typing entry for `(c, u)` is present, as 0 or 1. -/
def presentT (st : TState) (c u : String) : Nat :=
  match lookupT st c u with
  | some _ => 1
  | none => 0

/-- Number of typing episodes started for `(c, u)` along a trace: steps whose
pre-state has no entry and whose post-state has one. -/
def startsT (st : TState) (c u : String) : List TEv → Nat
  | [] => 0
  | e :: es =>
    let st2 := (stepT st e).1
    (if presentT st c u = 0 ∧ presentT st2 c u = 1 then 1 else 0) +
      startsT st2 c u es

end Typing

/-! ## Typing indicators of `src/lib/socket_enhanced.js` (lines 26-54, 97-142)

The legacy layer stores `{conversationId: {userId: {userName, timestamp}}}`
and expires entries with a 5-second `setInterval` sweep against a 10-second
timeout, again dropping a conversation object when it empties; the nested map
is embedded flat for the same reason as above. -/

namespace LegacyTyping

structure LEntry : Type where
  userName : String
  timestamp : Nat
deriving DecidableEq, Repr

def LTState : Type := List ((String × String) × LEntry)

/-- The legacy `TYPING_TIMEOUT` constant (10000 ms). -/
def typingTimeoutL : Nat := 10000

inductive LTOut : Type where
  | userTypingL (conversationId userId : String)
  | userStoppedTypingL (conversationId userId : String)
deriving DecidableEq, Repr

/-- The `socket.on("typing")` handler (lines 97-119): store/overwrite the
entry and always broadcast `userTyping`. -/
def typingL (st : LTState) (c u n : String) (now : Nat) : LTState × List LTOut :=
  (aset st (c, u) ⟨n, now⟩, [LTOut.userTypingL c u])

/-- The `socket.on("stopTyping")` handler (lines 121-142): only when an entry
exists, delete it and broadcast `userStoppedTyping`. -/
def stopTypingL (st : LTState) (c u : String) : LTState × List LTOut :=
  match alookup st (c, u) with
  | some _ => (aerase st (c, u), [LTOut.userStoppedTypingL c u])
  | none => (st, [])

/-- One entry is expired when `now - timestamp > TYPING_TIMEOUT`; with
truncated subtraction a future timestamp yields 0, matching the negative
JavaScript difference failing the comparison. -/
def expiredL (e : LEntry) (now : Nat) : Bool :=
  decide (now - e.timestamp > typingTimeoutL)

/-- The `setInterval` cleanup (lines 33-54): delete every expired entry and
broadcast one `userStoppedTyping` for each. -/
def sweepL (st : LTState) (now : Nat) : LTState × List LTOut :=
  match st with
  | [] => ([], [])
  | ((c, u), e) :: rest =>
    let r := sweepL rest now
    if expiredL e now then (r.1, LTOut.userStoppedTypingL c u :: r.2)
    else (((c, u), e) :: r.1, r.2)

/-- Number of `userStoppedTyping` broadcasts for `(c, u)` in an output list. -/
def stopsForL (outs : List LTOut) (c u : String) : Nat :=
  outs.countP (fun o => o == LTOut.userStoppedTypingL c u)

end LegacyTyping

/-! ## Enhanced message model `src/models/message_enhanced.model.js`

The fields relevant to delivery, read and reaction state, together with the
instance methods `markAsDelivered`, `markAsRead`, `addReaction`,
`removeReaction` and the `pre('save')` middleware.  Every method ends in
`this.save()`, which runs the middleware; user ids are compared through
`toString()`, embedded as plain string equality.  `new Date()` instants are
passed explicitly, in the order the source evaluates them. -/

namespace Msg

/-- One element of `deliveryStatus.delivered` or `deliveryStatus.read`:
`{userId, deliveredAt}` respectively `{userId, readAt}`. -/
structure Receipt : Type where
  userId : String
  atTime : Nat
deriving DecidableEq, Repr

/-- One element of `reactions`: `{emoji, users, count}`. -/
structure Reaction : Type where
  emoji : String
  users : List String
  count : Nat
deriving DecidableEq, Repr

structure Message : Type where
  senderId : String
  delivered : List Receipt
  readSet : List Receipt
  reactions : List Reaction
deriving DecidableEq, Repr

/-- The `pre('save')` middleware (lines 702-712): set every reaction's
`count` to `users.length`, then drop reactions whose count is 0. -/
def preSave (m : Message) : Message :=
  let recounted := m.reactions.map (fun r => { r with count := r.users.length })
  { m with reactions := recounted.filter (fun r => decide (0 < r.count)) }

/-- `markAsDelivered(userId)` (lines 558-571): push `{userId, new Date()}`
onto the delivered array unless some entry already has this user, then save. -/
def markAsDelivered (m : Message) (u : String) (now : Nat) : Message :=
  if m.delivered.any (fun d => d.userId == u) then preSave m
  else preSave { m with delivered := m.delivered ++ [⟨u, now⟩] }

/-- `markAsRead(userId)` (lines 574-590): unless some read entry already has
this user, push `{userId, new Date()}` onto the read array — evaluating the
read timestamp first — and then call `markAsDelivered`, whose `new Date()` is
evaluated second; finally save. -/
def markAsRead (m : Message) (u : String) (tRead tDel : Nat) : Message :=
  if m.readSet.any (fun r => r.userId == u) then preSave m
  else
    let m1 : Message := { m with readSet := m.readSet ++ [⟨u, tRead⟩] }
    preSave (markAsDelivered m1 u tDel)

/-- `addReaction(emoji, userId)` (lines 520-537): the first reaction with this
emoji gains the user (and `count += 1`) unless already present; with no such
reaction a `{emoji, users: [userId], count: 1}` entry is pushed. -/
def addReactionAux : List Reaction → String → String → List Reaction
  | [], e, u => [⟨e, [u], 1⟩]
  | r :: rs, e, u =>
    if r.emoji == e then
      (if r.users.contains u then r
       else { r with users := r.users ++ [u], count := r.count + 1 }) :: rs
    else r :: addReactionAux rs e u

def addReaction (m : Message) (e u : String) : Message :=
  preSave { m with reactions := addReactionAux m.reactions e u }

/-- `removeReaction(emoji, userId)` (lines 537-555): in the first reaction
with this emoji, splice out the user's first occurrence and decrement `count`;
when the count reaches 0 splice out the whole reaction. -/
def removeReactionAux : List Reaction → String → String → List Reaction
  | [], _, _ => []
  | r :: rs, e, u =>
    if r.emoji == e then
      (if r.users.contains u then
        (if r.count - 1 = 0 then rs
         else { r with users := r.users.erase u, count := r.count - 1 } :: rs)
       else r :: rs)
    else r :: removeReactionAux rs e u

def removeReaction (m : Message) (e u : String) : Message :=
  preSave { m with reactions := removeReactionAux m.reactions e u }

/-- Reading the reaction entry for an emoji: the first element of `reactions`
whose `emoji` matches, as `message.reactions.find(r => r.emoji === emoji)`
throughout the source. -/
def findReaction (m : Message) (e : String) : Option Reaction :=
  m.reactions.find? (fun r => r.emoji == e)

/-- The per-message state invariant of §3: every stored reaction's count
equals the cardinality of its duplicate-free user set and no empty reaction
is retained. -/
def ReactionInv (m : Message) : Prop :=
  ∀ r ∈ m.reactions, r.count = r.users.length ∧ r.users ≠ []

instance (m : Message) : Decidable (ReactionInv m) := by
  unfold ReactionInv
  infer_instance

/-- `sendMessage` (controller lines 143-148): after broadcasting the new
message, `await newMessage.markAsDelivered(senderId)` — the sender itself is
marked as a delivery recipient. -/
def autoDeliverForSender (m : Message) (now : Nat) : Message :=
  markAsDelivered m m.senderId now

end Msg

/-! ## Delivery/read handlers of `src/lib/socket_enhanced.js` (lines 145-215)

The legacy handlers operate on the plain message record's `deliveredTo` and
`readBy` arrays.  `senderSock` is `getReceiverSocketId(message.senderId)`.
Neither handler checks the sender or conversation membership, and the
`messageRead` handler never touches `deliveredTo`. -/

namespace LegacyMsg

structure LMessage : Type where
  senderId : String
  deliveredTo : List Msg.Receipt
  readBy : List Msg.Receipt
deriving DecidableEq, Repr

inductive MOut : Type where
  | messageStatusUpdate (toSock : Nat) (status : String) (userId : String)
deriving DecidableEq, Repr

/-- The `socket.on("messageDelivered")` handler (lines 145-179): when no
delivery entry carries this user, push `{userId, new Date()}` and notify the
sender's socket, if any, with `messageStatusUpdate{status: 'delivered'}`. -/
def onMessageDelivered (m : LMessage) (u : String) (now : Nat)
    (senderSock : Option Nat) : LMessage × List MOut :=
  if m.deliveredTo.any (fun d => d.userId == u) then (m, [])
  else
    let m2 : LMessage := { m with deliveredTo := m.deliveredTo ++ [⟨u, now⟩] }
    match senderSock with
    | some s => (m2, [MOut.messageStatusUpdate s "delivered" u])
    | none => (m2, [])

/-- The `socket.on("messageRead")` handler (lines 181-215): when no read entry
carries this user, push `{userId, new Date()}` onto `readBy` and notify the
sender's socket, if any, with `messageStatusUpdate{status: 'read'}`. -/
def onMessageRead (m : LMessage) (u : String) (now : Nat)
    (senderSock : Option Nat) : LMessage × List MOut :=
  if m.readBy.any (fun r => r.userId == u) then (m, [])
  else
    let m2 : LMessage := { m with readBy := m.readBy ++ [⟨u, now⟩] }
    match senderSock with
    | some s => (m2, [MOut.messageStatusUpdate s "read" u])
    | none => (m2, [])

end LegacyMsg

/-! ## REST controller `src/controllers/message_enhanced.controller.js` -/

namespace Ctrl

/-- `markMessageAsRead` (lines 156-197): after the access check, call
`message.markAsRead(userId)` and then — with no check of whether the state
changed — emit `messageStatusUpdate{status: 'read'}` to the sender's socket
whenever one exists and the sender differs from the caller.  `hasAccess`
stands for the conversation-participant check against the external store. -/
def markMessageAsRead (m : Msg.Message) (u : String) (tRead tDel : Nat)
    (senderSock : Option Nat) (hasAccess : Bool) :
    Msg.Message × List LegacyMsg.MOut :=
  if hasAccess then
    let m2 := Msg.markAsRead m u tRead tDel
    match senderSock with
    | some s =>
      if m.senderId != u then (m2, [LegacyMsg.MOut.messageStatusUpdate s "read" u])
      else (m2, [])
    | none => (m2, [])
  else (m, [])

end Ctrl

/-! ## Lemmas about the association-list operations -/

theorem alookup_aerase_self {α β : Type} [DecidableEq α]
    (m : List (α × β)) (k : α) : alookup (aerase m k) k = none := by
  induction m with
  | nil => simp [aerase, alookup]
  | cons p rest ih =>
    obtain ⟨k', v⟩ := p
    by_cases h : k' = k
    · simpa [aerase, h] using ih
    · simp [aerase, alookup, h, ih]

theorem alookup_aerase_ne {α β : Type} [DecidableEq α]
    (m : List (α × β)) (k k' : α) (h : k ≠ k') :
    alookup (aerase m k) k' = alookup m k' := by
  induction m with
  | nil => simp [aerase]
  | cons p rest ih =>
    obtain ⟨a, v⟩ := p
    by_cases ha : a = k
    · subst ha
      simp [aerase, alookup, h, Ne.symm h, ih]
    · by_cases hb : a = k'
      · simp [aerase, alookup, ha, hb, Ne.symm h]
      · simp [aerase, alookup, ha, hb, ih]

theorem alookup_aset_self {α β : Type} [DecidableEq α]
    (m : List (α × β)) (k : α) (v : β) : alookup (aset m k v) k = some v := by
  simp [aset, alookup]

theorem alookup_aset_ne {α β : Type} [DecidableEq α]
    (m : List (α × β)) (k k' : α) (v : β) (h : k ≠ k') :
    alookup (aset m k v) k' = alookup m k' := by
  simp [aset, alookup, fun hc => h hc, alookup_aerase_ne m k k' h]

theorem mem_of_alookup_eq_some {α β : Type} [DecidableEq α]
    {m : List (α × β)} {k : α} {v : β} (h : alookup m k = some v) :
    (k, v) ∈ m := by
  induction m with
  | nil => simp [alookup] at h
  | cons p rest ih =>
    obtain ⟨a, w⟩ := p
    by_cases ha : a = k
    · subst ha
      simp [alookup] at h
      simp [h]
    · simp [alookup, ha] at h
      exact List.mem_cons_of_mem _ (ih h)

theorem alookup_isSome_iff_mem_akeys {α β : Type} [DecidableEq α]
    (m : List (α × β)) (k : α) :
    (alookup m k).isSome = true ↔ k ∈ akeys m := by
  induction m with
  | nil => simp [alookup, akeys]
  | cons p rest ih =>
    obtain ⟨a, v⟩ := p
    by_cases ha : a = k
    · subst ha
      simp [alookup, akeys]
    · simp [alookup, akeys, ha, Ne.symm ha] at ih ⊢
      exact ih

theorem akeys_aerase {α β : Type} [DecidableEq α] (m : List (α × β)) (k : α) :
    akeys (aerase m k) = (akeys m).filter (fun a => decide (a ≠ k)) := by
  induction m with
  | nil => simp [aerase, akeys]
  | cons p rest ih =>
    obtain ⟨b, v⟩ := p
    by_cases hb : b = k
    · subst hb
      simp [aerase, akeys, List.filter] at ih ⊢
      exact ih
    · simp [aerase, akeys, List.filter, hb] at ih ⊢
      exact ih

theorem not_mem_akeys_aerase_self {α β : Type} [DecidableEq α]
    (m : List (α × β)) (k : α) : k ∉ akeys (aerase m k) := by
  rw [akeys_aerase]
  intro h
  have := List.of_mem_filter h
  simp at this

theorem akeys_nodup_aerase {α β : Type} [DecidableEq α]
    (m : List (α × β)) (k : α) (h : (akeys m).Nodup) :
    (akeys (aerase m k)).Nodup := by
  rw [akeys_aerase]
  exact h.filter _

theorem akeys_nodup_aset {α β : Type} [DecidableEq α]
    (m : List (α × β)) (k : α) (v : β) (h : (akeys m).Nodup) :
    (akeys (aset m k v)).Nodup := by
  have h1 := akeys_nodup_aerase m k h
  have h2 := not_mem_akeys_aerase_self m k
  have hs : akeys (aset m k v) = k :: akeys (aerase m k) := by simp [aset, akeys]
  rw [hs, List.nodup_cons]
  exact ⟨h2, h1⟩

theorem alookup_eq_some_of_mem_nodup {α β : Type} [DecidableEq α]
    {m : List (α × β)} {k : α} {v : β} (hn : (akeys m).Nodup)
    (h : (k, v) ∈ m) : alookup m k = some v := by
  induction m with
  | nil => simp at h
  | cons p rest ih =>
    obtain ⟨a, w⟩ := p
    have h' : a ∉ akeys rest ∧ (akeys rest).Nodup := by
      simpa [akeys, List.nodup_cons] using hn
    rcases List.mem_cons.mp h with h1 | h2
    · cases h1
      simp [alookup]
    · by_cases ha : a = k
      · subst ha
        have : a ∈ akeys rest := by
          simpa [akeys] using List.mem_map_of_mem (fun p => p.1) h2
        exact absurd this h'.1
      · simp [alookup, ha, ih h'.2 h2]


/-! ## Registry lemmas -/

namespace Registry

theorem onDisconnect_userSocketMap_nodup (st : RState) (s : Nat)
    (h : (akeys st.userSocketMap).Nodup) :
    (akeys (onDisconnect st s).1.userSocketMap).Nodup := by
  unfold onDisconnect
  cases halo : alookup st.socketUserMap s with
  | none => simpa [halo] using h
  | some u =>
    simp only [halo]
    exact akeys_nodup_aerase _ _ h

theorem onDisconnect_stale_preserves (st : RState) (u : String) (c1 c2 : Nat)
    (hwf : WF st) (hcur : alookup st.userSocketMap u = some c2) (hne : c1 ≠ c2) :
    alookup (onDisconnect st c1).1.userSocketMap u = some c2 := by
  unfold onDisconnect
  cases halo : alookup st.socketUserMap c1 with
  | none => simpa [halo] using hcur
  | some u' =>
    have hmem := mem_of_alookup_eq_some halo
    have hback : alookup st.userSocketMap u' = some c1 := hwf.2.2.2.1 _ hmem
    have hneu : u' ≠ u := by
      intro he
      subst he
      rw [hcur] at hback
      exact hne (Option.some.inj hback).symm
    simp only [halo]
    rw [alookup_aerase_ne _ _ _ hneu]
    exact hcur

theorem onDisconnect_current_removes (st : RState) (u : String) (c2 : Nat)
    (hwf : WF st) (hcur : alookup st.userSocketMap u = some c2) :
    alookup (onDisconnect st c2).1.userSocketMap u = none := by
  unfold onDisconnect
  have hmem := mem_of_alookup_eq_some hcur
  have hfwd : alookup st.socketUserMap c2 = some u := hwf.2.2.1 _ hmem
  simp only [hfwd]
  exact alookup_aerase_self _ _

theorem live_of_registered (st : RState) (u : String) (s : Nat)
    (hwf : WF st) (h : alookup st.userSocketMap u = some s) :
    st.live.contains s = true := by
  have hmem := mem_of_alookup_eq_some h
  have hfwd : alookup st.socketUserMap s = some u := hwf.2.2.1 _ hmem
  exact hwf.2.2.2.2 _ (mem_of_alookup_eq_some hfwd)

end Registry

namespace Registry

theorem onConnection_replace_eq (st : RState) (authUserId queryUserId : Option String)
    (sock : Nat) (convs : List String) (u : String) (oldSock : Nat)
    (hres : resolvedId authUserId queryUserId = some u)
    (hval : validId (some u) = true)
    (hold : alookup st.userSocketMap u = some oldSock)
    (hlive : st.live.contains oldSock = true) :
    onConnection st authUserId queryUserId sock convs =
      (let stA : RState := { st with live := sock :: st.live }
       let c := onDisconnect stA oldSock
       let st2 : RState := { c.1 with
         userSocketMap := aset c.1.userSocketMap u sock,
         socketUserMap := aset c.1.socketUserMap sock u,
         rooms := aset c.1.rooms sock (("user_" ++ u) :: convs.take 50) }
       (st2, [ROut.connectionReplaced oldSock, ROut.forceDisconnect oldSock] ++
         c.2 ++ [broadcastOnlineUsers st2])) := by
  unfold onConnection
  rw [hres]
  simp only [hval, if_true, hold, List.contains_cons, hlive, Bool.or_true, if_pos]

end Registry

open Registry in
/-- Claim C1: for every user, at most one connection is registered at a time
(the registered-connections map keeps each user id at most once), and when a
second connection registers for a user that already has one, the handler sends
`connectionReplaced` to the old socket, forcibly disconnects it, and installs
the new socket as the user's current connection. -/
theorem claim_C1 (st : RState) (authUserId queryUserId : Option String)
    (sock : Nat) (convs : List String) (u : String) (oldSock : Nat)
    (hwf : WF st)
    (hres : resolvedId authUserId queryUserId = some u)
    (hval : validId (some u) = true)
    (hold : alookup st.userSocketMap u = some oldSock) :
    ROut.connectionReplaced oldSock ∈ (onConnection st authUserId queryUserId sock convs).2 ∧
    ROut.forceDisconnect oldSock ∈ (onConnection st authUserId queryUserId sock convs).2 ∧
    alookup (onConnection st authUserId queryUserId sock convs).1.userSocketMap u = some sock ∧
    ∀ v : String, (akeys (onConnection st authUserId queryUserId sock convs).1.userSocketMap).count v ≤ 1 := by
  have hlive := live_of_registered st u oldSock hwf hold
  rw [onConnection_replace_eq st authUserId queryUserId sock convs u oldSock hres hval hold hlive]
  refine ⟨by simp, by simp, by simp [alookup_aset_self], ?_⟩
  intro v
  have hnodup : (akeys (onDisconnect { st with live := sock :: st.live } oldSock).1.userSocketMap).Nodup :=
    onDisconnect_userSocketMap_nodup _ _ hwf.1
  have hfinal := akeys_nodup_aset
    (onDisconnect { st with live := sock :: st.live } oldSock).1.userSocketMap u sock hnodup
  exact List.nodup_iff_count_le_one.mp hfinal v

/-- Concrete instance of claim C1: user `"u"` is registered on socket 1; a
second connection on socket 2 evicts socket 1 with a `connectionReplaced`
signal and a forced disconnect, and the map ends with exactly one entry. -/
theorem claim_C1_witness :
    Registry.ROut.connectionReplaced 1 ∈
      (Registry.onConnection ⟨[("u", 1)], [(1, "u")], [(1, ["user_u"])], [1]⟩
        (some "u") none 2 []).2 ∧
    Registry.ROut.forceDisconnect 1 ∈
      (Registry.onConnection ⟨[("u", 1)], [(1, "u")], [(1, ["user_u"])], [1]⟩
        (some "u") none 2 []).2 ∧
    alookup (Registry.onConnection ⟨[("u", 1)], [(1, "u")], [(1, ["user_u"])], [1]⟩
        (some "u") none 2 []).1.userSocketMap "u" = some 2 ∧
    ∀ v : String,
      (akeys (Registry.onConnection ⟨[("u", 1)], [(1, "u")], [(1, ["user_u"])], [1]⟩
        (some "u") none 2 []).1.userSocketMap).count v ≤ 1 :=
  claim_C1 ⟨[("u", 1)], [(1, "u")], [(1, ["user_u"])], [1]⟩ (some "u") none 2 [] "u" 1
    (by decide) rfl (by decide) (by decide)

/-- Claim C2 counterexample: in the legacy socket layer
(`src/lib/socket_enhanced.js`), user `"u"` connects on socket 1 and then on
socket 2 (the map now holds `u -> 2`); when the superseded socket 1 later
disconnects, its handler deletes `userSocketMap["u"]` unconditionally, so the
mapping `u -> 2` does not survive — the registry loses the newer connection. -/
theorem claim_C2_counterexample :
    alookup (LegacyRegistry.connectL (LegacyRegistry.connectL [] (some "u") 1)
      (some "u") 2) "u" = some 2 ∧
    alookup (LegacyRegistry.disconnectL
      (LegacyRegistry.connectL (LegacyRegistry.connectL [] (some "u") 1) (some "u") 2)
      (some "u") 1) "u" = none := by
  decide

open Registry in
/-- Claim C2 (amended): in `src/lib/socket.js` the disconnect handler keys off
`socketUserMap[socket.id]`, so on a well-formed registry a disconnect event
from a connection other than the one currently registered for `u` leaves the
mapping `u -> c2` unchanged, and the mapping is removed exactly when the
disconnecting socket is the currently-registered one; in the legacy
`src/lib/socket_enhanced.js` layer the disconnect handler deletes the mapping
of its query user id unconditionally, so a disconnect from a superseded
connection does evict the newer one. -/
theorem claim_C2 (st : RState) (u : String) (c1 c2 : Nat)
    (hwf : WF st) (hcur : alookup st.userSocketMap u = some c2) (hne : c1 ≠ c2) :
    alookup (onDisconnect st c1).1.userSocketMap u = some c2 ∧
    alookup (onDisconnect st c2).1.userSocketMap u = none := by
  exact ⟨onDisconnect_stale_preserves st u c1 c2 hwf hcur hne,
    onDisconnect_current_removes st u c2 hwf hcur⟩

/-- Concrete instance of amended claim C2: with `u` registered on socket 2, a
disconnect of socket 1 leaves `u -> 2` in place, and a disconnect of socket 2
removes it. -/
theorem claim_C2_witness :
    alookup (Registry.onDisconnect ⟨[("u", 2)], [(2, "u")], [(2, ["user_u"])], [2]⟩
      1).1.userSocketMap "u" = some 2 ∧
    alookup (Registry.onDisconnect ⟨[("u", 2)], [(2, "u")], [(2, ["user_u"])], [2]⟩
      2).1.userSocketMap "u" = none :=
  claim_C2 ⟨[("u", 2)], [(2, "u")], [(2, ["user_u"])], [2]⟩ "u" 1 2
    (by decide) (by decide) (by decide)

/-- Claim C9 counterexample: a connection whose identity resolution failed
(the auth middleware attached no user, `authUserId = none`) but whose raw
handshake query carries `userId = "ghost"` — an id the middleware failed to
validate — is nonetheless registered in the user-to-connection map, reported
in the `getOnlineUsers` presence broadcast, and subscribed to its conversation
room, contradicting the claim that such a connection is never registered,
reported online, or subscribed. -/
theorem claim_C9_counterexample :
    alookup (Registry.onConnection Registry.initState none (some "ghost") 7
      ["conv1"]).1.userSocketMap "ghost" = some 7 ∧
    alookup (Registry.onConnection Registry.initState none (some "ghost") 7
      ["conv1"]).1.rooms 7 = some ["user_ghost", "conv1"] ∧
    (Registry.onConnection Registry.initState none (some "ghost") 7 ["conv1"]).2 =
      [Registry.ROut.getOnlineUsers ["ghost"]] := by
  decide

open Registry in
/-- Claim C9 (amended): a connection that attaches with failed identity
resolution is kept open as a degraded session, but it is registered, reported
online and subscribed to rooms whenever the raw handshake query id is a
nonempty string other than the literals `"undefined"`/`"null"`; only when the
query id also fails that guard does the connection stay out of the
user-to-connection map, out of the online-users broadcast, and out of every
room. -/
theorem claim_C9 (st : RState) (queryUserId : Option String) (sock : Nat)
    (convs : List String) (hq : validId queryUserId = false) :
    (onConnection st none queryUserId sock convs).1.userSocketMap = st.userSocketMap ∧
    (onConnection st none queryUserId sock convs).1.socketUserMap = st.socketUserMap ∧
    (onConnection st none queryUserId sock convs).1.rooms = st.rooms ∧
    (onConnection st none queryUserId sock convs).2 =
      [ROut.getOnlineUsers (akeys st.userSocketMap)] := by
  cases queryUserId with
  | none => simp [onConnection, resolvedId, broadcastOnlineUsers]
  | some s =>
    simp only [validId] at hq
    simp [onConnection, resolvedId, validId, hq, broadcastOnlineUsers]

/-- Concrete instance of amended claim C9: an unresolved connection whose
query id is the literal string `"undefined"` ends up unregistered,
unsubscribed, and absent from the presence broadcast. -/
theorem claim_C9_witness :
    (Registry.onConnection ⟨[("a", 1)], [(1, "a")], [(1, ["user_a"])], [1]⟩ none
      (some "undefined") 9 ["conv1"]).1.userSocketMap = [("a", 1)] ∧
    (Registry.onConnection ⟨[("a", 1)], [(1, "a")], [(1, ["user_a"])], [1]⟩ none
      (some "undefined") 9 ["conv1"]).1.socketUserMap = [(1, "a")] ∧
    (Registry.onConnection ⟨[("a", 1)], [(1, "a")], [(1, ["user_a"])], [1]⟩ none
      (some "undefined") 9 ["conv1"]).1.rooms = [(1, ["user_a"])] ∧
    (Registry.onConnection ⟨[("a", 1)], [(1, "a")], [(1, ["user_a"])], [1]⟩ none
      (some "undefined") 9 ["conv1"]).2 =
      [Registry.ROut.getOnlineUsers ["a"]] :=
  claim_C9 ⟨[("a", 1)], [(1, "a")], [(1, ["user_a"])], [1]⟩ (some "undefined") 9
    ["conv1"] (by decide)

open Registry in
/-- Claim C10: every connection attach and every disconnect re-broadcasts a
`getOnlineUsers` event whose payload is the key set of the current
user-to-connection map, and the `io.emit` broadcast delivers it to every
connected socket, with no restriction to sockets sharing a conversation. -/
theorem claim_C10 :
    (∀ (st : RState) (authUserId queryUserId : Option String) (sock : Nat)
      (convs : List String),
      broadcastOnlineUsers (onConnection st authUserId queryUserId sock convs).1 ∈
        (onConnection st authUserId queryUserId sock convs).2) ∧
    (∀ (st : RState) (sock : Nat),
      broadcastOnlineUsers (onDisconnect st sock).1 ∈ (onDisconnect st sock).2) ∧
    (∀ (connected : List Nat) (users : List String) (s : Nat), s ∈ connected →
      deliversTo connected (ROut.getOnlineUsers users) s = true) := by
  refine ⟨?_, ?_, ?_⟩
  · intro st authUserId queryUserId sock convs
    unfold onConnection
    cases resolvedId authUserId queryUserId with
    | none => simp [broadcastOnlineUsers]
    | some u =>
      by_cases hv : validId (some u) = true
      · simp [hv, broadcastOnlineUsers]
      · simp [Bool.of_not_eq_true hv, broadcastOnlineUsers]
  · intro st sock
    unfold onDisconnect
    cases h : alookup st.socketUserMap sock with
    | none => simp [h, broadcastOnlineUsers]
    | some u => simp [h, broadcastOnlineUsers]
  · intro connected users s hs
    simpa [deliversTo] using List.elem_eq_true_of_mem hs

/-- Concrete instance of claim C10: socket 3 shares no conversation with the
attaching user `"b"` yet receives the `getOnlineUsers` broadcast. -/
theorem claim_C10_witness :
    Registry.broadcastOnlineUsers (Registry.onConnection Registry.initState
      (some "b") none 2 []).1 ∈
      (Registry.onConnection Registry.initState (some "b") none 2 []).2 ∧
    Registry.deliversTo [2, 3] (Registry.ROut.getOnlineUsers ["b"]) 3 = true :=
  ⟨claim_C10.1 Registry.initState (some "b") none 2 [],
    claim_C10.2.2 [2, 3] ["b"] 3 (by decide)⟩

/-! ## Typing-machine lemmas -/

namespace Typing

theorem presentT_eq_one_iff (st : TState) (c u : String) :
    presentT st c u = 1 ↔ lookupT st c u ≠ none := by
  unfold presentT
  cases lookupT st c u <;> simp

theorem presentT_eq_zero_iff (st : TState) (c u : String) :
    presentT st c u = 0 ↔ lookupT st c u = none := by
  unfold presentT
  cases lookupT st c u <;> simp

theorem stopsFor_append (a b : List TOut) (c u : String) :
    stopsFor (a ++ b) c u = stopsFor a c u + stopsFor b c u := by
  simp [stopsFor, List.countP_append]

theorem stopsFor_nil (c u : String) : stopsFor [] c u = 0 := rfl

theorem stopsFor_single_stop (c' u' c u : String) :
    stopsFor [TOut.userStoppedTyping c' u'] c u =
      if (c', u') = (c, u) then 1 else 0 := by
  by_cases h : (c', u') = (c, u)
  · obtain ⟨h1, h2⟩ := Prod.mk.injEq .. ▸ h
    subst h1
    subst h2
    simp [stopsFor, List.countP_cons, h]
  · have hb : (TOut.userStoppedTyping c' u' == TOut.userStoppedTyping c u) = false := by
      rcases Prod.mk.injEq .. ▸ h with hne
      cases hbe : (TOut.userStoppedTyping c' u' == TOut.userStoppedTyping c u)
      · rfl
      · exact absurd (congrArg (fun o => (o.1, o.2)) (by
          cases (beq_iff_eq.mp hbe)
          rfl : ((c', u'), ()) = ((c, u), ()))) (by simpa using h)
    simp [stopsFor, List.countP_cons, hb, h]

end Typing

namespace Typing

theorem stopsFor_single_typing (sock : Nat) (c' u' c u : String) :
    stopsFor [TOut.userTyping sock c' u'] c u = 0 := rfl

theorem stopsFor_single_err (sock : Nat) (c u : String) :
    stopsFor [TOut.errorSignal sock] c u = 0 := rfl

theorem presentT_aset_self (m : List ((String × String) × TEntry)) (g : Nat)
    (c u : String) (v : TEntry) : presentT ⟨aset m (c, u) v, g⟩ c u = 1 := by
  simp [presentT, lookupT, alookup_aset_self]

theorem presentT_aset_ne (m : List ((String × String) × TEntry)) (g g' : Nat)
    (c' u' c u : String) (v : TEntry) (h : (c', u') ≠ (c, u)) :
    presentT ⟨aset m (c', u') v, g⟩ c u = presentT ⟨m, g'⟩ c u := by
  simp [presentT, lookupT, alookup_aset_ne _ _ _ _ h]

theorem presentT_aerase_self (m : List ((String × String) × TEntry)) (g : Nat)
    (c u : String) : presentT ⟨aerase m (c, u), g⟩ c u = 0 := by
  simp [presentT, lookupT, alookup_aerase_self]

theorem presentT_aerase_ne (m : List ((String × String) × TEntry)) (g g' : Nat)
    (c' u' c u : String) (h : (c', u') ≠ (c, u)) :
    presentT ⟨aerase m (c', u'), g⟩ c u = presentT ⟨m, g'⟩ c u := by
  simp [presentT, lookupT, alookup_aerase_ne _ _ _ h]

theorem handleTyping_valid (st : TState) (sock : Nat) (c u n : String) (now : Nat)
    (hv : (validStr c && validStr u && validStr n) = true) :
    handleTyping st sock c u n now =
      (⟨aset st.typingUsers (c, u) ⟨n, now, sock, st.nextGen⟩, st.nextGen + 1⟩,
        [TOut.userTyping sock c u]) := by
  unfold handleTyping
  rw [if_pos hv]

theorem handleTyping_invalid (st : TState) (sock : Nat) (c u n : String) (now : Nat)
    (hv : ¬(validStr c && validStr u && validStr n) = true) :
    handleTyping st sock c u n now = (st, [TOut.errorSignal sock]) := by
  unfold handleTyping
  rw [if_neg hv]

theorem handleStopTyping_none (st : TState) (c u : String)
    (h : lookupT st c u = none) : handleStopTyping st c u = (st, []) := by
  unfold handleStopTyping
  rw [h]

theorem handleStopTyping_some (st : TState) (c u : String) (v : TEntry)
    (h : lookupT st c u = some v) :
    handleStopTyping st c u =
      (⟨aerase st.typingUsers (c, u), st.nextGen⟩, [TOut.userStoppedTyping c u]) := by
  unfold handleStopTyping
  rw [h]

theorem expireTimer_none (st : TState) (c u : String) (g : Nat)
    (h : lookupT st c u = none) : expireTimer st c u g = (st, []) := by
  unfold expireTimer
  rw [h]

theorem expireTimer_stale (st : TState) (c u : String) (g : Nat) (v : TEntry)
    (h : lookupT st c u = some v) (hg : ¬v.gen = g) :
    expireTimer st c u g = (st, []) := by
  unfold expireTimer
  rw [h]
  exact if_neg hg

theorem expireTimer_fires (st : TState) (c u : String) (g : Nat) (v : TEntry)
    (h : lookupT st c u = some v) (hg : v.gen = g) :
    expireTimer st c u g = handleStopTyping st c u := by
  unfold expireTimer
  rw [h]
  exact if_pos hg

/-- One step of the typing machine balances `userStoppedTyping` broadcasts for
`(c, u)` against entry creation and removal. -/
theorem stepT_balance (st : TState) (e : TEv) (c u : String) :
    stopsFor (stepT st e).2 c u + presentT (stepT st e).1 c u =
      (if presentT st c u = 0 ∧ presentT (stepT st e).1 c u = 1 then 1 else 0) +
        presentT st c u := by
  have hp : presentT st c u = 0 ∨ presentT st c u = 1 := by
    unfold presentT
    cases lookupT st c u <;> simp
  have hself : ∀ g : Nat, presentT ⟨st.typingUsers, g⟩ c u = presentT st c u :=
    fun _ => rfl
  cases e with
  | typing sock c' u' n now =>
    simp only [stepT]
    by_cases hv : (validStr c' && validStr u' && validStr n) = true
    · by_cases hk : ((c', u') : String × String) = (c, u)
      · have hps : presentT ⟨aset st.typingUsers (c', u')
            ⟨n, now, sock, st.nextGen⟩, st.nextGen + 1⟩ c u = 1 := by
          rw [hk]
          exact presentT_aset_self _ _ _ _ _
        simp only [handleTyping_valid st sock c' u' n now hv,
          stopsFor_single_typing, hps]
        rcases hp with hp | hp <;> simp [hp]
      · simp only [handleTyping_valid st sock c' u' n now hv, stopsFor_single_typing,
          presentT_aset_ne st.typingUsers (st.nextGen + 1) st.nextGen c' u' c u
            ⟨n, now, sock, st.nextGen⟩ hk, hself]
        rcases hp with hp | hp <;> simp [hp]
    · simp only [handleTyping_invalid st sock c' u' n now hv, stopsFor_single_err]
      rcases hp with hp | hp <;> simp [hp]
  | stop c' u' =>
    simp only [stepT]
    cases hl : lookupT st c' u' with
    | none =>
      simp only [handleStopTyping_none st c' u' hl, stopsFor_nil]
      rcases hp with hp | hp <;> simp [hp]
    | some v =>
      by_cases hk : ((c', u') : String × String) = (c, u)
      · have hcu : lookupT st c u = some v := by
          unfold lookupT
          rw [hk.symm]
          exact hl
        have hp1 : presentT st c u = 1 := by
          rw [presentT_eq_one_iff]
          simp [hcu]
        have hpe : presentT ⟨aerase st.typingUsers (c', u'), st.nextGen⟩ c u = 0 := by
          rw [hk]
          exact presentT_aerase_self _ _ _ _
        simp only [handleStopTyping_some st c' u' v hl, stopsFor_single_stop,
          if_pos hk, hpe]
        simp [hp1]
      · simp only [handleStopTyping_some st c' u' v hl, stopsFor_single_stop,
          if_neg hk, presentT_aerase_ne st.typingUsers st.nextGen st.nextGen c' u' c u hk,
          hself]
        rcases hp with hp | hp <;> simp [hp]
  | expire c' u' g =>
    simp only [stepT]
    cases hl : lookupT st c' u' with
    | none =>
      simp only [expireTimer_none st c' u' g hl, stopsFor_nil]
      rcases hp with hp | hp <;> simp [hp]
    | some v =>
      by_cases hg : v.gen = g
      · by_cases hk : ((c', u') : String × String) = (c, u)
        · have hcu : lookupT st c u = some v := by
            unfold lookupT
            rw [hk.symm]
            exact hl
          have hp1 : presentT st c u = 1 := by
            rw [presentT_eq_one_iff]
            simp [hcu]
          have hpe : presentT ⟨aerase st.typingUsers (c', u'), st.nextGen⟩ c u = 0 := by
            rw [hk]
            exact presentT_aerase_self _ _ _ _
          simp only [expireTimer_fires st c' u' g v hl hg,
            handleStopTyping_some st c' u' v hl, stopsFor_single_stop, if_pos hk, hpe]
          simp [hp1]
        · simp only [expireTimer_fires st c' u' g v hl hg,
            handleStopTyping_some st c' u' v hl, stopsFor_single_stop, if_neg hk,
            presentT_aerase_ne st.typingUsers st.nextGen st.nextGen c' u' c u hk, hself]
          rcases hp with hp | hp <;> simp [hp]
      · simp only [expireTimer_stale st c' u' g v hl hg, stopsFor_nil]
        rcases hp with hp | hp <;> simp [hp]

end Typing

namespace Typing

/-- Along any event trace, the number of `userStoppedTyping` broadcasts for
`(c, u)` plus the final presence equals the number of typing episodes started
plus the initial presence: every completed episode is closed by exactly one
stop broadcast, whether by explicit stop or by timer expiry. -/
theorem runT_balance (st : TState) (evs : List TEv) (c u : String) :
    stopsFor (runT st evs).2 c u + presentT (runT st evs).1 c u =
      startsT st c u evs + presentT st c u := by
  induction evs generalizing st with
  | nil => simp [runT, stopsFor, startsT]
  | cons e es ih =>
    have hstep := stepT_balance st e c u
    have hrec := ih (stepT st e).1
    have hrun : runT st (e :: es) =
        ((runT (stepT st e).1 es).1, (stepT st e).2 ++ (runT (stepT st e).1 es).2) := rfl
    have hstart : startsT st c u (e :: es) =
        (if presentT st c u = 0 ∧ presentT (stepT st e).1 c u = 1 then 1 else 0) +
          startsT (stepT st e).1 c u es := rfl
    rw [hrun, hstart]
    simp only [stopsFor_append]
    omega

end Typing

/-! ## Legacy typing lemmas -/

theorem alookup_eq_none_of_not_mem_akeys {α β : Type} [DecidableEq α]
    {m : List (α × β)} {k : α} (h : k ∉ akeys m) : alookup m k = none := by
  cases hl : alookup m k with
  | none => rfl
  | some v =>
    have : (alookup m k).isSome = true := by simp [hl]
    exact absurd ((alookup_isSome_iff_mem_akeys m k).1 this) h

theorem mem_aerase_key_ne {α β : Type} [DecidableEq α]
    {m : List (α × β)} {k : α} {p : α × β} (h : p ∈ aerase m k) : p.1 ≠ k := by
  induction m with
  | nil => simp [aerase] at h
  | cons q rest ih =>
    obtain ⟨a, v⟩ := q
    by_cases ha : a = k
    · exact ih (by simpa [aerase, ha] using h)
    · rcases (by simpa [aerase, ha] using h : p = (a, v) ∨ p ∈ aerase rest k) with h1 | h2
      · simpa [h1] using ha
      · exact ih h2

namespace LegacyTyping

theorem countP_key_zero (m : LTState) (k : String × String)
    (q : LEntry → Bool) (h : k ∉ akeys m) :
    m.countP (fun p => p.1 == k && q p.2) = 0 := by
  induction m with
  | nil => simp
  | cons p rest ih =>
    have h1 : p.1 ≠ k := by
      intro he
      exact h (by simp [akeys, he.symm, List.mem_map])
    have h2 : k ∉ akeys rest := fun hm => h (by simp [akeys] at hm ⊢; right; exact hm)
    simp [List.countP_cons, h1, ih h2]

theorem countP_key_nodup (m : LTState) (k : String × String) (v : LEntry)
    (q : LEntry → Bool) (hn : (akeys m).Nodup) (hv : alookup m k = some v) :
    m.countP (fun p => p.1 == k && q p.2) = if q v then 1 else 0 := by
  induction m with
  | nil => simp [alookup] at hv
  | cons p rest ih =>
    obtain ⟨a, w⟩ := p
    have h' : a ∉ akeys rest ∧ (akeys rest).Nodup := by
      simpa [akeys, List.nodup_cons] using hn
    by_cases ha : a = k
    · subst ha
      have hw : w = v := by
        simpa [alookup] using hv
      subst hw
      have hz := countP_key_zero rest a q h'.1
      rw [List.countP_cons, hz]
      simp
    · have hv' : alookup rest k = some v := by
        simpa [alookup, ha] using hv
      simp [List.countP_cons, ha, ih h'.2 hv']

/-- The sweep broadcasts one `userStoppedTyping` per expired `(c, u)` entry. -/
theorem sweepL_stops (m : LTState) (now : Nat) (c u : String) :
    stopsForL (sweepL m now).2 c u =
      m.countP (fun p => p.1 == ((c, u) : String × String) && expiredL p.2 now) := by
  induction m with
  | nil => simp [sweepL, stopsForL]
  | cons p rest ih =>
    obtain ⟨⟨c0, u0⟩, e0⟩ := p
    simp only [stopsForL] at ih ⊢
    by_cases he : expiredL e0 now = true
    · by_cases hk : ((c0, u0) : String × String) = (c, u)
      · have hb : (LTOut.userStoppedTypingL c0 u0 == LTOut.userStoppedTypingL c u) = true := by
          have hc : c0 = c := congrArg Prod.fst hk
          have hu : u0 = u := congrArg Prod.snd hk
          simp [hc, hu]
        simp [sweepL, he, List.countP_cons, hb, hk, ih]
      · have hb : (LTOut.userStoppedTypingL c0 u0 == LTOut.userStoppedTypingL c u) = false := by
          cases hbe : (LTOut.userStoppedTypingL c0 u0 == LTOut.userStoppedTypingL c u)
          · rfl
          · have := beq_iff_eq.mp hbe
            cases this
            exact absurd rfl hk
        simp [sweepL, he, List.countP_cons, hb, hk, ih]
    · have he' : expiredL e0 now = false := Bool.of_not_eq_true he
      simp [sweepL, he', List.countP_cons, ih]

/-- After a sweep, an entry survives exactly when it was present and not
expired (on a map with distinct keys). -/
theorem sweepL_lookup (m : LTState) (now : Nat) (k : String × String)
    (hn : (akeys m).Nodup) :
    alookup (sweepL m now).1 k =
      match alookup m k with
      | some e => if expiredL e now then none else some e
      | none => none := by
  induction m with
  | nil => simp [sweepL, alookup]
  | cons p rest ih =>
    obtain ⟨⟨c0, u0⟩, e0⟩ := p
    have h' : ((c0, u0) : String × String) ∉ akeys rest ∧ (akeys rest).Nodup := by
      simpa [akeys, List.nodup_cons] using hn
    by_cases hk : ((c0, u0) : String × String) = k
    · subst hk
      have hrest : alookup rest (c0, u0) = none := alookup_eq_none_of_not_mem_akeys h'.1
      by_cases he : expiredL e0 now = true
      · have : alookup (sweepL rest now).1 (c0, u0) = none := by
          rw [ih h'.2, hrest]
        simp [sweepL, he, alookup, this]
      · have he' : expiredL e0 now = false := Bool.of_not_eq_true he
        simp [sweepL, he', alookup]
    · by_cases he : expiredL e0 now = true
      · have : alookup (sweepL rest now).1 k =
            match alookup rest k with
            | some e => if expiredL e now then none else some e
            | none => none := ih h'.2
        simp [sweepL, he, alookup, hk, this]
      · have he' : expiredL e0 now = false := Bool.of_not_eq_true he
        have : alookup (sweepL rest now).1 k =
            match alookup rest k with
            | some e => if expiredL e now then none else some e
            | none => none := ih h'.2
        simp [sweepL, he', alookup, hk, this]

theorem stopTypingL_none (st : LTState) (c u : String)
    (h : alookup st ((c, u) : String × String) = none) :
    stopTypingL st c u = (st, []) := by
  unfold stopTypingL
  rw [h]

theorem stopTypingL_some (st : LTState) (c u : String) (v : LEntry)
    (h : alookup st ((c, u) : String × String) = some v) :
    stopTypingL st c u = (aerase st (c, u), [LTOut.userStoppedTypingL c u]) := by
  unfold stopTypingL
  rw [h]

end LegacyTyping

/-- Claim C6 counterexample: user `"u"` sends `typing` in conversation `"c"`
twice in a row; the typing entry exists when the second call arrives, yet the
second call broadcasts `userTyping` again — the code re-broadcasts on every
typing event rather than only when no entry exists. -/
theorem claim_C6_counterexample :
    Typing.lookupT (Typing.handleTyping Typing.initT 7 "c" "u" "n" 0).1 "c" "u" ≠
      none ∧
    (Typing.handleTyping (Typing.handleTyping Typing.initT 7 "c" "u" "n" 0).1 7
      "c" "u" "n" 5).2 = [Typing.TOut.userTyping 7 "c" "u"] := by
  constructor
  · decide
  · decide

open Typing in
/-- Claim C6 (amended): every valid `handleTyping` call broadcasts `userTyping`
to the conversation room excluding the originating socket — also when an entry
already exists; in that case the call does cancel and re-arm the entry's expiry
timer (the previously armed timer can no longer fire, and a fresh one is
installed), but it re-broadcasts `userTyping` nonetheless. -/
theorem claim_C6 (st : TState) (sock : Nat) (c u n : String) (now : Nat)
    (e : TEntry)
    (hv : (validStr c && validStr u && validStr n) = true)
    (hgen : ∀ p ∈ st.typingUsers, p.2.gen < st.nextGen)
    (hold : lookupT st c u = some e) :
    (handleTyping st sock c u n now).2 = [TOut.userTyping sock c u] ∧
    lookupT (handleTyping st sock c u n now).1 c u =
      some ⟨n, now, sock, st.nextGen⟩ ∧
    expireTimer (handleTyping st sock c u n now).1 c u e.gen =
      ((handleTyping st sock c u n now).1, []) := by
  have hgl : e.gen < st.nextGen := hgen _ (mem_of_alookup_eq_some hold)
  rw [handleTyping_valid st sock c u n now hv]
  refine ⟨rfl, ?_, ?_⟩
  · simp [lookupT, alookup_aset_self]
  · refine expireTimer_stale _ c u e.gen ⟨n, now, sock, st.nextGen⟩ ?_ ?_
    · simp [lookupT, alookup_aset_self]
    · simp only []
      omega

/-- Concrete instance of amended claim C6: with an entry armed at generation 0,
a renewal broadcasts `userTyping` again, re-arms at generation 1, and the old
generation-0 timer can no longer fire. -/
theorem claim_C6_witness :
    (Typing.handleTyping ⟨[(("c", "u"), ⟨"n", 0, 7, 0⟩)], 1⟩ 7 "c" "u" "n" 5).2 =
      [Typing.TOut.userTyping 7 "c" "u"] ∧
    Typing.lookupT (Typing.handleTyping ⟨[(("c", "u"), ⟨"n", 0, 7, 0⟩)], 1⟩ 7
      "c" "u" "n" 5).1 "c" "u" = some ⟨"n", 5, 7, 1⟩ ∧
    Typing.expireTimer (Typing.handleTyping ⟨[(("c", "u"), ⟨"n", 0, 7, 0⟩)], 1⟩ 7
      "c" "u" "n" 5).1 "c" "u" (Typing.TEntry.mk "n" 0 7 0).gen =
      ((Typing.handleTyping ⟨[(("c", "u"), ⟨"n", 0, 7, 0⟩)], 1⟩ 7 "c" "u" "n" 5).1, []) :=
  claim_C6 ⟨[(("c", "u"), ⟨"n", 0, 7, 0⟩)], 1⟩ 7 "c" "u" "n" 5 ⟨"n", 0, 7, 0⟩
    (by decide) (by decide) (by decide)

open Typing LegacyTyping in
/-- Claim C7: in both socket layers, a stop request with no typing entry is a
no-op that broadcasts nothing and changes no state; and `userStoppedTyping` is
broadcast exactly once per typing episode: along any trace of the enhanced
layer's machine, the number of stop broadcasts for `(c, u)` plus the final
presence of an entry equals the number of episodes started plus the initial
presence; in the legacy layer, an explicit stop emits one broadcast and the
subsequent sweep emits none, while a sweep that expires the entry emits one
broadcast and a subsequent explicit stop is a no-op. -/
theorem claim_C7 :
    (∀ (st : TState) (c u : String),
      lookupT st c u = none → handleStopTyping st c u = (st, [])) ∧
    (∀ (st : TState) (evs : List TEv) (c u : String),
      stopsFor (runT st evs).2 c u + presentT (runT st evs).1 c u =
        startsT st c u evs + presentT st c u) ∧
    (∀ (st : LTState) (c u : String),
      alookup st ((c, u) : String × String) = none → stopTypingL st c u = (st, [])) ∧
    (∀ (st : LTState) (c u : String) (v : LEntry) (now : Nat),
      alookup st ((c, u) : String × String) = some v →
        stopsForL (stopTypingL st c u).2 c u = 1 ∧
        stopsForL (sweepL (stopTypingL st c u).1 now).2 c u = 0) ∧
    (∀ (st : LTState) (c u : String) (v : LEntry) (now : Nat),
      (akeys st).Nodup → alookup st ((c, u) : String × String) = some v →
        expiredL v now = true →
          stopsForL (sweepL st now).2 c u = 1 ∧
          stopTypingL (sweepL st now).1 c u = ((sweepL st now).1, [])) := by
  refine ⟨handleStopTyping_none, runT_balance, stopTypingL_none, ?_, ?_⟩
  · intro st c u v now hv
    rw [stopTypingL_some st c u v hv]
    constructor
    · simp [stopsForL, List.countP_cons]
    · rw [sweepL_stops]
      exact countP_key_zero (aerase st (c, u)) (c, u) (fun e => expiredL e now)
        (not_mem_akeys_aerase_self st (c, u))
  · intro st c u v now hn hv he
    constructor
    · rw [sweepL_stops,
        countP_key_nodup st (c, u) v (fun e => expiredL e now) hn hv, he]
      simp
    · refine stopTypingL_none _ c u ?_
      rw [sweepL_lookup st now (c, u) hn, hv]
      simp [he]

/-- Concrete instance of claim C7: stopping with no entry is a no-op in both
layers; one full episode (typing then stop) yields one stop broadcast in the
enhanced layer; in the legacy layer an explicit stop then a sweep yields one
broadcast, as does a sweep on an expired entry followed by an explicit stop. -/
theorem claim_C7_witness :
    Typing.handleStopTyping Typing.initT "c" "u" = (Typing.initT, []) ∧
    (Typing.stopsFor (Typing.runT Typing.initT
        [Typing.TEv.typing 7 "c" "u" "n" 0, Typing.TEv.stop "c" "u"]).2 "c" "u" +
      Typing.presentT (Typing.runT Typing.initT
        [Typing.TEv.typing 7 "c" "u" "n" 0, Typing.TEv.stop "c" "u"]).1 "c" "u" =
      Typing.startsT Typing.initT "c" "u"
        [Typing.TEv.typing 7 "c" "u" "n" 0, Typing.TEv.stop "c" "u"] +
      Typing.presentT Typing.initT "c" "u") ∧
    LegacyTyping.stopTypingL [] "c" "u" = ([], []) ∧
    (LegacyTyping.stopsForL (LegacyTyping.stopTypingL
        [(("c", "u"), ⟨"n", 0⟩)] "c" "u").2 "c" "u" = 1 ∧
      LegacyTyping.stopsForL (LegacyTyping.sweepL (LegacyTyping.stopTypingL
        [(("c", "u"), ⟨"n", 0⟩)] "c" "u").1 99999).2 "c" "u" = 0) ∧
    (LegacyTyping.stopsForL (LegacyTyping.sweepL
        [(("c", "u"), ⟨"n", 0⟩)] 99999).2 "c" "u" = 1 ∧
      LegacyTyping.stopTypingL (LegacyTyping.sweepL
        [(("c", "u"), ⟨"n", 0⟩)] 99999).1 "c" "u" =
        ((LegacyTyping.sweepL [(("c", "u"), ⟨"n", 0⟩)] 99999).1, [])) :=
  ⟨claim_C7.1 Typing.initT "c" "u" (by decide),
    claim_C7.2.1 Typing.initT
      [Typing.TEv.typing 7 "c" "u" "n" 0, Typing.TEv.stop "c" "u"] "c" "u",
    claim_C7.2.2.1 [] "c" "u" (by decide),
    claim_C7.2.2.2.1 [(("c", "u"), ⟨"n", 0⟩)] "c" "u" ⟨"n", 0⟩ 99999 (by decide),
    claim_C7.2.2.2.2 [(("c", "u"), ⟨"n", 0⟩)] "c" "u" ⟨"n", 0⟩ 99999 (by decide)
      (by decide) (by decide)⟩

/-! ## Message-model lemmas -/

namespace Msg

theorem preSave_senderId (m : Message) : (preSave m).senderId = m.senderId := rfl

theorem preSave_delivered (m : Message) : (preSave m).delivered = m.delivered := rfl

theorem preSave_readSet (m : Message) : (preSave m).readSet = m.readSet := rfl

theorem preSave_idem (m : Message) : preSave (preSave m) = preSave m := by
  unfold preSave
  simp only []
  congr 1
  have hfix : ∀ r ∈ (m.reactions.map
      (fun r => { r with count := r.users.length })).filter
        (fun r => decide (0 < r.count)),
      (fun r : Reaction => { r with count := r.users.length }) r = r := by
    intro r hr
    rcases List.mem_filter.mp hr with ⟨hmem, _⟩
    rcases List.mem_map.mp hmem with ⟨r0, _, rfl⟩
    rfl
  rw [List.map_congr_left hfix, List.map_id']
  refine List.filter_eq_self.mpr ?_
  intro r hr
  exact (List.mem_filter.mp hr).2

theorem markAsDelivered_has (m : Message) (u : String) (t : Nat) :
    (markAsDelivered m u t).delivered.any (fun d => d.userId == u) = true := by
  unfold markAsDelivered
  by_cases h : m.delivered.any (fun d => d.userId == u) = true
  · rw [if_pos h, preSave_delivered]
    exact h
  · rw [if_neg h, preSave_delivered]
    simp [List.any_append]

theorem markAsDelivered_already (m : Message) (u : String) (t : Nat)
    (h : m.delivered.any (fun d => d.userId == u) = true) :
    markAsDelivered m u t = preSave m := by
  unfold markAsDelivered
  rw [if_pos h]

theorem markAsDelivered_fresh (m : Message) (u : String) (t : Nat)
    (h : ¬m.delivered.any (fun d => d.userId == u) = true) :
    markAsDelivered m u t = preSave { m with delivered := m.delivered ++ [⟨u, t⟩] } := by
  unfold markAsDelivered
  rw [if_neg h]

theorem markAsDelivered_idem (m : Message) (u : String) (t1 t2 : Nat) :
    markAsDelivered (markAsDelivered m u t1) u t2 = markAsDelivered m u t1 := by
  have h := markAsDelivered_has m u t1
  rw [markAsDelivered_already (markAsDelivered m u t1) u t2 h]
  unfold markAsDelivered
  by_cases hd : m.delivered.any (fun d => d.userId == u) = true
  · rw [if_pos hd, preSave_idem]
  · rw [if_neg hd, preSave_idem]

theorem markAsRead_has (m : Message) (u : String) (tR tD : Nat) :
    (markAsRead m u tR tD).readSet.any (fun r => r.userId == u) = true := by
  unfold markAsRead
  by_cases h : m.readSet.any (fun r => r.userId == u) = true
  · rw [if_pos h, preSave_readSet]
    exact h
  · rw [if_neg h, preSave_readSet]
    unfold markAsDelivered
    by_cases hd : ({ m with readSet := m.readSet ++ [⟨u, tR⟩] } :
        Message).delivered.any (fun d => d.userId == u) = true
    · rw [if_pos hd]
      simp [preSave_readSet, List.any_append]
    · rw [if_neg hd]
      simp [preSave_readSet, List.any_append]

theorem markAsRead_already (m : Message) (u : String) (tR tD : Nat)
    (h : m.readSet.any (fun r => r.userId == u) = true) :
    markAsRead m u tR tD = preSave m := by
  unfold markAsRead
  rw [if_pos h]

theorem preSave_markAsRead (m : Message) (u : String) (tR tD : Nat) :
    preSave (markAsRead m u tR tD) = markAsRead m u tR tD := by
  unfold markAsRead
  by_cases hr : m.readSet.any (fun r => r.userId == u) = true
  · rw [if_pos hr, preSave_idem]
  · rw [if_neg hr, preSave_idem]

theorem markAsRead_idem (m : Message) (u : String) (a b c d : Nat) :
    markAsRead (markAsRead m u a b) u c d = markAsRead m u a b := by
  rw [markAsRead_already (markAsRead m u a b) u c d (markAsRead_has m u a b),
    preSave_markAsRead]

end Msg

namespace Msg

theorem markAsDelivered_readSet (m : Message) (u : String) (t : Nat) :
    (markAsDelivered m u t).readSet = m.readSet := by
  unfold markAsDelivered
  by_cases h : m.delivered.any (fun d => d.userId == u) = true
  · rw [if_pos h, preSave_readSet]
  · rw [if_neg h, preSave_readSet]

theorem preSave_markAsDelivered (m : Message) (u : String) (t : Nat) :
    preSave (markAsDelivered m u t) = markAsDelivered m u t := by
  unfold markAsDelivered
  by_cases h : m.delivered.any (fun d => d.userId == u) = true
  · rw [if_pos h, preSave_idem]
  · rw [if_neg h, preSave_idem]

theorem markAsRead_fresh_readSet (m : Message) (u : String) (tR tD : Nat)
    (h : ¬m.readSet.any (fun r => r.userId == u) = true) :
    (markAsRead m u tR tD).readSet = m.readSet ++ [⟨u, tR⟩] := by
  unfold markAsRead
  rw [if_neg h, preSave_readSet, markAsDelivered_readSet]

theorem markAsRead_delivered_has (m : Message) (u : String) (tR tD : Nat)
    (h : ¬m.readSet.any (fun r => r.userId == u) = true) :
    (markAsRead m u tR tD).delivered.any (fun d => d.userId == u) = true := by
  unfold markAsRead
  rw [if_neg h, preSave_delivered]
  exact markAsDelivered_has _ u tD

theorem markAsRead_fresh_delivered (m : Message) (u : String) (tR tD : Nat)
    (h : ¬m.readSet.any (fun r => r.userId == u) = true)
    (hd : ¬m.delivered.any (fun d => d.userId == u) = true) :
    (markAsRead m u tR tD).delivered = m.delivered ++ [⟨u, tD⟩] := by
  unfold markAsRead
  rw [if_neg h, preSave_delivered,
    markAsDelivered_fresh _ u tD (by simpa using hd), preSave_delivered]

end Msg

/-- Claim C3 counterexample: through the legacy socket layer's `messageRead`
handler, recipient `"r"` (not the sender `"s"`) marks a fresh message as read:
`"r"` is appended to `readBy` but `deliveredTo` stays empty — a read entry
exists without any delivered entry for the same recipient, and `"r"` does not
appear in both sets. -/
theorem claim_C3_counterexample :
    (LegacyMsg.onMessageRead ⟨"s", [], []⟩ "r" 5 (some 9)).1.readBy =
      [⟨"r", 5⟩] ∧
    (LegacyMsg.onMessageRead ⟨"s", [], []⟩ "r" 5 (some 9)).1.deliveredTo = [] := by
  constructor
  · decide
  · decide

open Msg in
/-- Claim C3 (amended): through the enhanced model's `markAsRead`, a recipient
not yet in the read set ends up in both the read and delivered sets; when the
delivered entry is created by the same call, the read timestamp is taken
before the delivered timestamp, so readAt ≤ deliveredAt (not deliveredAt ≤
readAt as claimed).  The legacy socket layer's `messageRead` handler instead
appends only to `readBy` and never touches `deliveredTo`, so a read entry can
exist without a delivered entry. -/
theorem claim_C3 (m : Message) (u : String) (tR tD : Nat)
    (h : ¬m.readSet.any (fun r => r.userId == u) = true)
    (hord : tR ≤ tD) :
    (markAsRead m u tR tD).readSet = m.readSet ++ [⟨u, tR⟩] ∧
    (markAsRead m u tR tD).delivered.any (fun d => d.userId == u) = true ∧
    (¬m.delivered.any (fun d => d.userId == u) = true →
      (markAsRead m u tR tD).delivered = m.delivered ++ [⟨u, tD⟩] ∧ tR ≤ tD) := by
  exact ⟨markAsRead_fresh_readSet m u tR tD h,
    markAsRead_delivered_has m u tR tD h,
    fun hd => ⟨markAsRead_fresh_delivered m u tR tD h hd, hord⟩⟩

/-- Concrete instance of amended claim C3: a fresh message read by `"r"` at
instant 5 (read timestamp) and 6 (delivered timestamp): `"r"` lands in both
sets with readAt 5 ≤ deliveredAt 6. -/
theorem claim_C3_witness :
    (Msg.markAsRead ⟨"s", [], [], []⟩ "r" 5 6).readSet = [⟨"r", 5⟩] ∧
    (Msg.markAsRead ⟨"s", [], [], []⟩ "r" 5 6).delivered.any
      (fun d => d.userId == "r") = true ∧
    (¬(Msg.Message.mk "s" [] [] []).delivered.any
        (fun d => d.userId == "r") = true →
      (Msg.markAsRead ⟨"s", [], [], []⟩ "r" 5 6).delivered = [⟨"r", 6⟩] ∧
        (5 : Nat) ≤ 6) :=
  claim_C3 ⟨"s", [], [], []⟩ "r" 5 6 (by decide) (by decide)

/-- Claim C4 counterexample: `sendMessage` auto-marks every new message as
delivered **to its own sender** (controller lines 143-148), and the legacy
`messageDelivered` handler appends the sender to `deliveredTo` with no sender
or participant check — `MarkDelivered(m, sender)` is not a no-op and the
sender does appear in the delivered set. -/
theorem claim_C4_counterexample :
    (Msg.autoDeliverForSender ⟨"s", [], [], []⟩ 3).delivered = [⟨"s", 3⟩] ∧
    (LegacyMsg.onMessageDelivered ⟨"s", [], []⟩ "s" 4 (some 9)).1.deliveredTo =
      [⟨"s", 4⟩] := by
  constructor
  · decide
  · decide

open Msg in
/-- Claim C4 (amended): `markAsDelivered` and the `messageDelivered` handler
perform no sender check and no conversation-participant check: any user id not
yet in the delivered set — the sender included — is appended; `sendMessage`
deliberately marks each new message delivered for its own sender. -/
theorem claim_C4 (m : Message) (u : String) (t : Nat) (lm : LegacyMsg.LMessage)
    (senderSock : Option Nat) :
    (markAsDelivered m u t).delivered.any (fun d => d.userId == u) = true ∧
    (¬m.delivered.any (fun d => d.userId == u) = true →
      (markAsDelivered m u t).delivered = m.delivered ++ [⟨u, t⟩]) ∧
    (autoDeliverForSender m t).delivered.any
      (fun d => d.userId == m.senderId) = true ∧
    (¬lm.deliveredTo.any (fun d => d.userId == lm.senderId) = true →
      (LegacyMsg.onMessageDelivered lm lm.senderId t senderSock).1.deliveredTo =
        lm.deliveredTo ++ [⟨lm.senderId, t⟩]) := by
  refine ⟨markAsDelivered_has m u t, ?_, markAsDelivered_has m m.senderId t, ?_⟩
  · intro hd
    rw [markAsDelivered_fresh m u t (by simpa using hd), preSave_delivered]
  · intro hd
    unfold LegacyMsg.onMessageDelivered
    rw [if_neg (by simpa using hd)]
    cases senderSock <;> rfl

/-- Concrete instance of amended claim C4: a fresh message from `"s"` marked
delivered for `"s"` itself gains the sender as a delivery recipient in both
the enhanced model and the legacy handler. -/
theorem claim_C4_witness :
    (Msg.markAsDelivered ⟨"s", [], [], []⟩ "s" 3).delivered.any
      (fun d => d.userId == "s") = true ∧
    (¬(Msg.Message.mk "s" [] [] []).delivered.any
        (fun d => d.userId == "s") = true →
      (Msg.markAsDelivered ⟨"s", [], [], []⟩ "s" 3).delivered = [⟨"s", 3⟩]) ∧
    (Msg.autoDeliverForSender ⟨"s", [], [], []⟩ 3).delivered.any
      (fun d => d.userId == (Msg.Message.mk "s" [] [] []).senderId) = true ∧
    (¬(LegacyMsg.LMessage.mk "s" [] []).deliveredTo.any
        (fun d => d.userId == (LegacyMsg.LMessage.mk "s" [] []).senderId) = true →
      (LegacyMsg.onMessageDelivered ⟨"s", [], []⟩
        (LegacyMsg.LMessage.mk "s" [] []).senderId 3 (some 9)).1.deliveredTo =
        [⟨(LegacyMsg.LMessage.mk "s" [] []).senderId, 3⟩]) :=
  claim_C4 ⟨"s", [], [], []⟩ "s" 3 ⟨"s", [], []⟩ (some 9)

namespace Msg

theorem markAsDelivered_senderId (m : Message) (u : String) (t : Nat) :
    (markAsDelivered m u t).senderId = m.senderId := by
  unfold markAsDelivered
  by_cases h : m.delivered.any (fun d => d.userId == u) = true
  · rw [if_pos h, preSave_senderId]
  · rw [if_neg h, preSave_senderId]

theorem markAsRead_senderId (m : Message) (u : String) (tR tD : Nat) :
    (markAsRead m u tR tD).senderId = m.senderId := by
  unfold markAsRead
  by_cases h : m.readSet.any (fun r => r.userId == u) = true
  · rw [if_pos h, preSave_senderId]
  · rw [if_neg h, preSave_senderId, markAsDelivered_senderId]

end Msg

namespace LegacyMsg

theorem onMessageDelivered_has (lm : LMessage) (u : String) (t : Nat)
    (senderSock : Option Nat) :
    (onMessageDelivered lm u t senderSock).1.deliveredTo.any
      (fun d => d.userId == u) = true := by
  unfold onMessageDelivered
  by_cases h : lm.deliveredTo.any (fun d => d.userId == u) = true
  · rw [if_pos h]
    exact h
  · rw [if_neg h]
    cases senderSock <;> simp [List.any_append]

theorem onMessageRead_has (lm : LMessage) (u : String) (t : Nat)
    (senderSock : Option Nat) :
    (onMessageRead lm u t senderSock).1.readBy.any
      (fun r => r.userId == u) = true := by
  unfold onMessageRead
  by_cases h : lm.readBy.any (fun r => r.userId == u) = true
  · rw [if_pos h]
    exact h
  · rw [if_neg h]
    cases senderSock <;> simp [List.any_append]

theorem onMessageDelivered_already (lm : LMessage) (u : String) (t : Nat)
    (senderSock : Option Nat)
    (h : lm.deliveredTo.any (fun d => d.userId == u) = true) :
    onMessageDelivered lm u t senderSock = (lm, []) := by
  unfold onMessageDelivered
  rw [if_pos h]

theorem onMessageRead_already (lm : LMessage) (u : String) (t : Nat)
    (senderSock : Option Nat)
    (h : lm.readBy.any (fun r => r.userId == u) = true) :
    onMessageRead lm u t senderSock = (lm, []) := by
  unfold onMessageRead
  rw [if_pos h]

end LegacyMsg

/-- Claim C5 counterexample: recipient `"r"` calls the REST
`markMessageAsRead` endpoint twice for the same message from online sender
`"s"` (socket 9); the second call changes no state yet still emits a second
`messageStatusUpdate` broadcast to the sender — a duplicate beyond the first
transition. -/
theorem claim_C5_counterexample :
    (Ctrl.markMessageAsRead (Ctrl.markMessageAsRead ⟨"s", [], [], []⟩ "r" 1 1
      (some 9) true).1 "r" 2 2 (some 9) true).2 =
      [LegacyMsg.MOut.messageStatusUpdate 9 "read" "r"] := by
  decide

open Msg LegacyMsg in
/-- Claim C5 (amended): repeated `MarkDelivered`/`MarkRead` calls converge to
the same state as a single call, and the legacy socket handlers broadcast
`messageStatusUpdate` only on the first state-changing call; the REST
`markMessageAsRead` endpoint, however, emits the broadcast on every call for
which the sender is online and differs from the caller, so repeats do produce
duplicate broadcasts there. -/
theorem claim_C5 (m : Message) (u : String) (t1 t2 a b c d : Nat)
    (lm : LegacyMsg.LMessage) (s1 s2 : Option Nat) (s : Nat)
    (hne : ¬m.senderId = u) :
    markAsDelivered (markAsDelivered m u t1) u t2 = markAsDelivered m u t1 ∧
    markAsRead (markAsRead m u a b) u c d = markAsRead m u a b ∧
    (LegacyMsg.onMessageDelivered
      (LegacyMsg.onMessageDelivered lm u t1 s1).1 u t2 s2).2 = [] ∧
    (LegacyMsg.onMessageRead
      (LegacyMsg.onMessageRead lm u t1 s1).1 u t2 s2).2 = [] ∧
    (Ctrl.markMessageAsRead (Ctrl.markMessageAsRead m u a b (some s) true).1 u
      c d (some s) true).2 = [LegacyMsg.MOut.messageStatusUpdate s "read" u] := by
  refine ⟨markAsDelivered_idem m u t1 t2, markAsRead_idem m u a b c d, ?_, ?_, ?_⟩
  · rw [onMessageDelivered_already _ u t2 s2 (onMessageDelivered_has lm u t1 s1)]
  · rw [onMessageRead_already _ u t2 s2 (onMessageRead_has lm u t1 s1)]
  · have hs1 : (Ctrl.markMessageAsRead m u a b (some s) true).1 =
        markAsRead m u a b := by
      unfold Ctrl.markMessageAsRead
      by_cases hb : (m.senderId != u) = true
      · rw [if_pos rfl]
        simp only [hb, if_true]
      · rw [if_pos rfl]
        simp only [hb]
        rfl
    rw [hs1]
    unfold Ctrl.markMessageAsRead
    rw [if_pos rfl]
    have hbne : ((markAsRead m u a b).senderId != u) = true := by
      rw [markAsRead_senderId]
      exact bne_iff_ne.mpr hne
    simp only [hbne, if_true]

/-- Concrete instance of amended claim C5: repeating each operation on a fresh
message from `"s"` read by `"r"` converges in state, the legacy handlers stay
silent on the repeat, and the REST endpoint re-emits the broadcast. -/
theorem claim_C5_witness :
    Msg.markAsDelivered (Msg.markAsDelivered ⟨"s", [], [], []⟩ "r" 1) "r" 2 =
      Msg.markAsDelivered ⟨"s", [], [], []⟩ "r" 1 ∧
    Msg.markAsRead (Msg.markAsRead ⟨"s", [], [], []⟩ "r" 3 4) "r" 5 6 =
      Msg.markAsRead ⟨"s", [], [], []⟩ "r" 3 4 ∧
    (LegacyMsg.onMessageDelivered
      (LegacyMsg.onMessageDelivered ⟨"s", [], []⟩ "r" 1 (some 9)).1 "r" 2
        (some 9)).2 = [] ∧
    (LegacyMsg.onMessageRead
      (LegacyMsg.onMessageRead ⟨"s", [], []⟩ "r" 1 (some 9)).1 "r" 2
        (some 9)).2 = [] ∧
    (Ctrl.markMessageAsRead (Ctrl.markMessageAsRead ⟨"s", [], [], []⟩ "r" 3 4
      (some 9) true).1 "r" 5 6 (some 9) true).2 =
      [LegacyMsg.MOut.messageStatusUpdate 9 "read" "r"] :=
  claim_C5 ⟨"s", [], [], []⟩ "r" 1 2 3 4 5 6 ⟨"s", [], []⟩ (some 9) (some 9) 9
    (by decide)

/-! ## Reaction lemmas -/

namespace Msg

theorem reactionInv_preSave (m : Message) : ReactionInv (preSave m) := by
  intro r hr
  unfold preSave at hr
  simp only [] at hr
  rcases List.mem_filter.mp hr with ⟨hmem, hpos⟩
  rcases List.mem_map.mp hmem with ⟨r0, _, rfl⟩
  refine ⟨rfl, ?_⟩
  have : 0 < r0.users.length := by simpa using hpos
  exact List.ne_nil_of_length_pos this

theorem addReactionAux_users_nodup (rs : List Reaction) (e u : String)
    (h : ∀ r ∈ rs, r.users.Nodup) :
    ∀ x ∈ addReactionAux rs e u, x.users.Nodup := by
  induction rs with
  | nil =>
    intro x hx
    simp [addReactionAux] at hx
    simp [hx]
  | cons r0 rest ih =>
    intro x hx
    by_cases hh : (r0.emoji == e) = true
    · by_cases hc : u ∈ r0.users
      · have hcb : r0.users.contains u = true := List.elem_eq_true_of_mem hc
        simp only [addReactionAux, hh, if_true] at hx
        rw [if_pos hcb] at hx
        rcases List.mem_cons.mp hx with h1 | h2
        · exact h1 ▸ h r0 (List.mem_cons_self _ _)
        · exact h x (List.mem_cons_of_mem _ h2)
      · have hcb : r0.users.contains u = false := by
          cases hb : r0.users.contains u
          · rfl
          · exact absurd (by simpa using hb) hc
        simp only [addReactionAux, hh, if_true] at hx
        rw [if_neg (by simpa using hc)] at hx
        rcases List.mem_cons.mp hx with h1 | h2
        · have := h r0 (List.mem_cons_self _ _)
          subst h1
          simpa [List.nodup_append, hc] using this
        · exact h x (List.mem_cons_of_mem _ h2)
    · simp only [addReactionAux, hh] at hx
      rcases List.mem_cons.mp (by simpa using hx) with h1 | h2
      · exact h1 ▸ h r0 (List.mem_cons_self _ _)
      · exact ih (fun r hr => h r (List.mem_cons_of_mem _ hr)) x h2

theorem removeReactionAux_users_nodup (rs : List Reaction) (e u : String)
    (h : ∀ r ∈ rs, r.users.Nodup) :
    ∀ x ∈ removeReactionAux rs e u, x.users.Nodup := by
  induction rs with
  | nil =>
    intro x hx
    simp [removeReactionAux] at hx
  | cons r0 rest ih =>
    intro x hx
    by_cases hh : (r0.emoji == e) = true
    · by_cases hc : u ∈ r0.users
      · have hcb : r0.users.contains u = true := List.elem_eq_true_of_mem hc
        by_cases hz : r0.count - 1 = 0
        · simp only [removeReactionAux, hh, if_true] at hx
          rw [if_pos hcb, if_pos hz] at hx
          exact h x (List.mem_cons_of_mem _ hx)
        · simp only [removeReactionAux, hh, if_true] at hx
          rw [if_pos hcb, if_neg hz] at hx
          rcases List.mem_cons.mp hx with h1 | h2
          · subst h1
            exact (h r0 (List.mem_cons_self _ _)).erase u
          · exact h x (List.mem_cons_of_mem _ h2)
      · have hcb : r0.users.contains u = false := by
          cases hb : r0.users.contains u
          · rfl
          · exact absurd (by simpa using hb) hc
        simp only [removeReactionAux, hh, if_true] at hx
        rw [if_neg (by simpa using hc)] at hx
        rcases List.mem_cons.mp hx with h1 | h2
        · exact h1 ▸ h r0 (List.mem_cons_self _ _)
        · exact h x (List.mem_cons_of_mem _ h2)
    · simp only [removeReactionAux, hh] at hx
      rcases List.mem_cons.mp (by simpa using hx) with h1 | h2
      · exact h1 ▸ h r0 (List.mem_cons_self _ _)
      · exact ih (fun r hr => h r (List.mem_cons_of_mem _ hr)) x h2

end Msg

namespace Msg

theorem removeReactionAux_no_emoji (rs : List Reaction) (e u : String)
    (r : Reaction) (hnodup : (rs.map (fun x => x.emoji)).Nodup)
    (hfind : rs.find? (fun x => x.emoji == e) = some r) (husers : r.users = [u]) :
    ∀ x ∈ removeReactionAux rs e u, x.emoji = e → x.users = [] := by
  induction rs with
  | nil => simp at hfind
  | cons r0 rest ih =>
    by_cases hh : (r0.emoji == e) = true
    · have hr0 : r0 = r := by
        have := List.find?_cons_of_pos (p := fun x => x.emoji == e) rest hh
        rw [this] at hfind
        exact Option.some.inj hfind
      subst hr0
      have hcb : r0.users.contains u = true := by simp [husers]
      have hz0 : r0.users.erase u = [] := by simp [husers]
      have hee : r0.emoji = e := eq_of_beq hh
      have htail : ∀ x ∈ rest, ¬x.emoji = e := by
        intro x hx hxe
        have hne : r0.emoji ∉ rest.map (fun x => x.emoji) :=
          (List.nodup_cons.mp (by simpa using hnodup)).1
        exact hne (by
          rw [hee, ← hxe]
          exact List.mem_map_of_mem _ hx)
      intro x hx hxe
      by_cases hz : r0.count - 1 = 0
      · simp only [removeReactionAux, hh, if_true] at hx
        rw [if_pos hcb, if_pos hz] at hx
        exact absurd hxe (htail x hx)
      · simp only [removeReactionAux, hh, if_true] at hx
        rw [if_pos hcb, if_neg hz] at hx
        rcases List.mem_cons.mp hx with h1 | h2
        · subst h1
          simpa using hz0
        · exact absurd hxe (htail x h2)
    · have hfind' : rest.find? (fun x => x.emoji == e) = some r := by
        have := List.find?_cons_of_neg (p := fun x => x.emoji == e) rest (by simpa using hh)
        rw [this] at hfind
        exact hfind
      have hnd' : (rest.map (fun x => x.emoji)).Nodup :=
        (List.nodup_cons.mp (by simpa using hnodup)).2
      intro x hx hxe
      simp only [removeReactionAux, hh] at hx
      rcases List.mem_cons.mp (by simpa using hx) with h1 | h2
      · subst h1
        exact absurd (by simp [hxe] : (x.emoji == e) = true) hh
      · exact ih hnd' hfind' x h2 hxe

theorem removeReaction_last (m : Message) (e u : String) (r : Reaction)
    (hnodup : (m.reactions.map (fun x => x.emoji)).Nodup)
    (hfind : findReaction m e = some r) (husers : r.users = [u]) :
    findReaction (removeReaction m e u) e = none := by
  unfold findReaction removeReaction preSave
  simp only []
  rw [List.find?_eq_none]
  intro x hx
  rcases List.mem_filter.mp hx with ⟨hmem, hpos⟩
  rcases List.mem_map.mp hmem with ⟨x0, hx0, rfl⟩
  intro hxe
  have hxe' : x0.emoji = e := eq_of_beq (by simpa using hxe)
  have hempty := removeReactionAux_no_emoji m.reactions e u r hnodup hfind husers
    x0 hx0 hxe'
  simp [hempty] at hpos

end Msg

open Msg in
/-- Claim C8: after every save (the `pre('save')` middleware runs on each
`addReaction`/`removeReaction`, which both end in `this.save()`), every stored
reaction's count equals the length of its user list and no empty entry is
retained; the user lists stay duplicate-free (so length is the cardinality of
the user set); and removing the last user of an emoji deletes that emoji's
entry entirely — a subsequent lookup finds no entry. -/
theorem claim_C8 :
    (∀ m : Message, ReactionInv (preSave m)) ∧
    (∀ (m : Message) (e u : String),
      ReactionInv (addReaction m e u) ∧ ReactionInv (removeReaction m e u)) ∧
    (∀ (m : Message) (e u : String), (∀ r ∈ m.reactions, r.users.Nodup) →
      (∀ r ∈ (addReaction m e u).reactions, r.users.Nodup) ∧
      (∀ r ∈ (removeReaction m e u).reactions, r.users.Nodup)) ∧
    (∀ (m : Message) (e u : String) (r : Reaction),
      (m.reactions.map (fun x => x.emoji)).Nodup →
      findReaction m e = some r → r.users = [u] →
      findReaction (removeReaction m e u) e = none) := by
  refine ⟨reactionInv_preSave, ?_, ?_, removeReaction_last⟩
  · intro m e u
    exact ⟨reactionInv_preSave _, reactionInv_preSave _⟩
  · intro m e u h
    constructor
    · intro r hr
      unfold addReaction preSave at hr
      simp only [] at hr
      rcases List.mem_filter.mp hr with ⟨hmem, _⟩
      rcases List.mem_map.mp hmem with ⟨r0, hr0, rfl⟩
      exact addReactionAux_users_nodup m.reactions e u h r0 hr0
    · intro r hr
      unfold removeReaction preSave at hr
      simp only [] at hr
      rcases List.mem_filter.mp hr with ⟨hmem, _⟩
      rcases List.mem_map.mp hmem with ⟨r0, hr0, rfl⟩
      exact removeReactionAux_users_nodup m.reactions e u h r0 hr0

/-- Concrete instance of claim C8, following the scenario of §8: with 👍
(written `"like"`) held by users `"A"` and `"B"`, removing `"B"` leaves a
well-formed entry of count 1, and removing the last user `"A"` afterwards
deletes the entry — the lookup for `"like"` then finds nothing. -/
theorem claim_C8_witness :
    Msg.ReactionInv (Msg.preSave ⟨"s", [], [], [⟨"like", ["A", "B"], 2⟩]⟩) ∧
    Msg.ReactionInv
      (Msg.removeReaction ⟨"s", [], [], [⟨"like", ["A", "B"], 2⟩]⟩ "like" "B") ∧
    Msg.findReaction
      (Msg.removeReaction ⟨"s", [], [], [⟨"like", ["A"], 1⟩]⟩ "like" "A")
      "like" = none :=
  ⟨claim_C8.1 ⟨"s", [], [], [⟨"like", ["A", "B"], 2⟩]⟩,
    (claim_C8.2.1 ⟨"s", [], [], [⟨"like", ["A", "B"], 2⟩]⟩ "like" "B").2,
    claim_C8.2.2.2 ⟨"s", [], [], [⟨"like", ["A"], 1⟩]⟩ "like" "A"
      ⟨"like", ["A"], 1⟩ (by decide) (by decide) (by decide)⟩
